import Mathlib

/-!
# Verification of the reconciliation matching engine

Shallow embedding of the core of `backend/app/routers/reconcile.py` and
`backend/app/routers/razorpay_export.py`: the key normalizer `norm`, the
Razorpay payment paginator `fetch_payments`, the Mongo order scanner, the
payment-index / matched-set construction, the NA (not-applied) report and
the handler `vlookup_payment_to_orders_auto`.

Strings are Lean `String`s (Python `str` compared by code points); character
level work happens on `String.data : List Char`.  Python dicts are modelled
as association lists with dict semantics (insertion order kept, value
overwritten in place on key collision); Python sets as duplicate-free lists.
-/

namespace Reconcile

/-! ## Key normalizer (`norm`, reconcile.py lines 13-15) -/

/-- The no-break-space character that `norm` replaces with an ordinary space. -/
def nbsp : Char := ' '

/-- Code points removed by Python's `str.strip()`: all characters for which
`str.isspace()` holds (ASCII whitespace, the C1/Unicode space separators,
line/paragraph separators). -/
def isPySpace (c : Char) : Bool :=
  decide (c.toNat = 9 ∨ c.toNat = 10 ∨ c.toNat = 11 ∨ c.toNat = 12 ∨ c.toNat = 13 ∨
    (28 ≤ c.toNat ∧ c.toNat ≤ 31) ∨ c.toNat = 32 ∨ c.toNat = 133 ∨ c.toNat = 160 ∨
    c.toNat = 5760 ∨ (8192 ≤ c.toNat ∧ c.toNat ≤ 8202) ∨ c.toNat = 8232 ∨
    c.toNat = 8233 ∨ c.toNat = 8239 ∨ c.toNat = 8287 ∨ c.toNat = 12288)

/-- One character of Python's `str.lower()`, on the ASCII range (the identifier
and status strings handled by the engine are ASCII). -/
def lowerChar (c : Char) : Char :=
  if 65 ≤ c.toNat ∧ c.toNat ≤ 90 then Char.ofNat (c.toNat + 32) else c

/-- `s.replace(" ", " ")` at character level. -/
def replaceNBSP (l : List Char) : List Char :=
  l.map (fun c => if c = nbsp then ' ' else c)

/-- Left part of `str.strip()`. -/
def stripL (l : List Char) : List Char := l.dropWhile isPySpace

/-- Right part of `str.strip()`. -/
def stripR (l : List Char) : List Char := (l.reverse.dropWhile isPySpace).reverse

/-- Python's `str.strip()` at character level. -/
def pstrip (l : List Char) : List Char := stripR (stripL l)

/-- Character-level body of `norm`. -/
def normData (l : List Char) (ci : Bool) : List Char :=
  let t := pstrip (replaceNBSP l)
  if ci then t.map lowerChar else t

/-- `norm(s, case_insensitive=ci)` from reconcile.py:
`t = (s or "").replace(" ", " ").strip(); return t.lower() if ci else t`.
`none` models Python `None` (`s or ""` makes it `""`). -/
def norm (s : Option String) (ci : Bool) : String :=
  ⟨normData (s.getD "").data ci⟩

/-- Python's `.strip().lower()` used on payment statuses and on `na_status`. -/
def stripLower (s : String) : String := ⟨(pstrip s.data).map lowerChar⟩

/-- Python's `.lower()` on a whole string. -/
def lowerStr (s : String) : String := ⟨s.data.map lowerChar⟩

/-! ### Facts about `lowerChar` and `isPySpace` -/

theorem toNat_ofNat_of_le (n : Nat) (h1 : 97 ≤ n) (h2 : n ≤ 122) :
    (Char.ofNat n).toNat = n := by
  interval_cases n <;> decide

theorem lowerChar_toNat (c : Char) (h1 : 65 ≤ c.toNat) (h2 : c.toNat ≤ 90) :
    (lowerChar c).toNat = c.toNat + 32 := by
  unfold lowerChar
  rw [if_pos ⟨h1, h2⟩]
  exact toNat_ofNat_of_le (c.toNat + 32) (by omega) (by omega)

theorem lowerChar_eq_self (c : Char) (h : ¬(65 ≤ c.toNat ∧ c.toNat ≤ 90)) :
    lowerChar c = c := by
  unfold lowerChar
  rw [if_neg h]

theorem lowerChar_idem (c : Char) : lowerChar (lowerChar c) = lowerChar c := by
  by_cases h : 65 ≤ c.toNat ∧ c.toNat ≤ 90
  · have ht : (lowerChar c).toNat = c.toNat + 32 := lowerChar_toNat c h.1 h.2
    exact lowerChar_eq_self (lowerChar c) (by rw [ht]; omega)
  · rw [lowerChar_eq_self c h, lowerChar_eq_self c h]

theorem isPySpace_lowerChar (c : Char) : isPySpace (lowerChar c) = isPySpace c := by
  by_cases h : 65 ≤ c.toNat ∧ c.toNat ≤ 90
  · have ht : (lowerChar c).toNat = c.toNat + 32 := lowerChar_toNat c h.1 h.2
    unfold isPySpace
    rw [decide_eq_decide, ht]
    omega
  · unfold lowerChar
    rw [if_neg h]

theorem lowerChar_ne_nbsp (c : Char) (h : c ≠ nbsp) : lowerChar c ≠ nbsp := by
  by_cases hr : 65 ≤ c.toNat ∧ c.toNat ≤ 90
  · intro he
    have ht : (lowerChar c).toNat = c.toNat + 32 := lowerChar_toNat c hr.1 hr.2
    rw [he] at ht
    have : nbsp.toNat = 160 := by decide
    omega
  · unfold lowerChar
    rw [if_neg hr]
    exact h

/-! ### Facts about stripping -/

theorem dropWhile_idem (p : Char → Bool) (l : List Char) :
    List.dropWhile p (List.dropWhile p l) = List.dropWhile p l := by
  induction l with
  | nil => rfl
  | cons a l ih =>
    by_cases h : p a = true
    · simp [List.dropWhile_cons, h, ih]
    · simp [List.dropWhile_cons, h]

theorem stripL_stripL (l : List Char) : stripL (stripL l) = stripL l :=
  dropWhile_idem isPySpace l

theorem stripR_stripR (l : List Char) : stripR (stripR l) = stripR l := by
  unfold stripR
  rw [List.reverse_reverse, dropWhile_idem]

theorem not_space_head_of_stripL (a : Char) (m : List Char)
    (h : stripL (a :: m) = a :: m) : isPySpace a = false := by
  by_cases hp : isPySpace a = true
  · exfalso
    unfold stripL at h
    rw [List.dropWhile_cons, if_pos hp] at h
    have hle := (@List.dropWhile_sublist Char m isPySpace).length_le
    have := congrArg List.length h
    simp at this
    omega
  · simpa using hp

theorem stripL_stripR (m : List Char) (h : stripL m = m) :
    stripL (stripR m) = stripR m := by
  cases m with
  | nil => rfl
  | cons a m' =>
    have ha : isPySpace a = false := not_space_head_of_stripL a m' h
    unfold stripR
    rw [List.reverse_cons, List.dropWhile_append]
    by_cases he : (List.dropWhile isPySpace m'.reverse).isEmpty = true
    · rw [if_pos he]
      simp [List.dropWhile_cons, ha, stripL]
    · rw [if_neg he]
      rw [List.reverse_append]
      simp only [List.reverse_cons, List.reverse_nil, List.nil_append, List.singleton_append]
      simp [stripL, List.dropWhile_cons, ha]

theorem pstrip_idem (l : List Char) : pstrip (pstrip l) = pstrip l := by
  unfold pstrip
  rw [stripL_stripR (stripL l) (stripL_stripL l), stripR_stripR]

theorem mem_stripL (c : Char) (l : List Char) (h : c ∈ stripL l) : c ∈ l :=
  (List.dropWhile_sublist isPySpace).subset h

theorem mem_stripR (c : Char) (l : List Char) (h : c ∈ stripR l) : c ∈ l := by
  unfold stripR at h
  rw [List.mem_reverse] at h
  have := (List.dropWhile_sublist isPySpace).subset h
  rwa [List.mem_reverse] at this

theorem mem_pstrip (c : Char) (l : List Char) (h : c ∈ pstrip l) : c ∈ l :=
  mem_stripL c l (mem_stripR c (stripL l) h)

theorem mem_replaceNBSP_ne (c : Char) (l : List Char) (h : c ∈ replaceNBSP l) :
    c ≠ nbsp := by
  unfold replaceNBSP at h
  rw [List.mem_map] at h
  obtain ⟨a, _, ha⟩ := h
  by_cases hn : a = nbsp
  · rw [hn, if_pos rfl] at ha
    rw [← ha]
    decide
  · rw [if_neg hn] at ha
    rw [← ha]
    exact hn

theorem replaceNBSP_of_no_nbsp (l : List Char) (h : ∀ c ∈ l, c ≠ nbsp) :
    replaceNBSP l = l := by
  unfold replaceNBSP
  conv_rhs => rw [← List.map_id l]
  apply List.map_congr_left
  intro a ha
  rw [if_neg (h a ha)]
  rfl

theorem dropWhile_map_lower (l : List Char) :
    List.dropWhile isPySpace (l.map lowerChar) =
      (List.dropWhile isPySpace l).map lowerChar := by
  rw [List.dropWhile_map]
  have : isPySpace ∘ lowerChar = isPySpace := by
    funext c
    exact isPySpace_lowerChar c
  rw [this]

theorem stripL_map_lower (l : List Char) :
    stripL (l.map lowerChar) = (stripL l).map lowerChar :=
  dropWhile_map_lower l

theorem stripR_map_lower (l : List Char) :
    stripR (l.map lowerChar) = (stripR l).map lowerChar := by
  unfold stripR
  rw [← List.map_reverse, dropWhile_map_lower, List.map_reverse]

theorem pstrip_map_lower (l : List Char) :
    pstrip (l.map lowerChar) = (pstrip l).map lowerChar := by
  unfold pstrip
  rw [stripL_map_lower, stripR_map_lower]

theorem map_lower_idem (l : List Char) :
    (l.map lowerChar).map lowerChar = l.map lowerChar := by
  rw [List.map_map]
  apply List.map_congr_left
  intro a _
  exact lowerChar_idem a

theorem normData_idem (l : List Char) (ci : Bool) :
    normData (normData l ci) ci = normData l ci := by
  have hnb : ∀ c ∈ pstrip (replaceNBSP l), c ≠ nbsp := fun c hc =>
    mem_replaceNBSP_ne c l (mem_pstrip c (replaceNBSP l) hc)
  cases ci with
  | false =>
    show pstrip (replaceNBSP (pstrip (replaceNBSP l))) = pstrip (replaceNBSP l)
    rw [replaceNBSP_of_no_nbsp (pstrip (replaceNBSP l)) hnb, pstrip_idem]
  | true =>
    show (pstrip (replaceNBSP ((pstrip (replaceNBSP l)).map lowerChar))).map lowerChar =
      (pstrip (replaceNBSP l)).map lowerChar
    have hnb' : ∀ c ∈ (pstrip (replaceNBSP l)).map lowerChar, c ≠ nbsp := by
      intro c hc
      rw [List.mem_map] at hc
      obtain ⟨a, ha, hac⟩ := hc
      rw [← hac]
      exact lowerChar_ne_nbsp a (hnb a ha)
    rw [replaceNBSP_of_no_nbsp ((pstrip (replaceNBSP l)).map lowerChar) hnb',
      pstrip_map_lower, pstrip_idem, map_lower_idem]

/-- C4 (claim): `norm` is total — `None` and `""` both normalize to `""` — and
idempotent for either value of the `case_insensitive` flag. -/
theorem norm_total_idem (x : Option String) (ci : Bool) :
    norm none ci = "" ∧ norm (some "") ci = "" ∧
      norm (some (norm x ci)) ci = norm x ci := by
  refine ⟨?_, ?_, ?_⟩
  · cases ci <;> rfl
  · cases ci <;> rfl
  · show (⟨normData (normData (x.getD "").data ci) ci⟩ : String) = ⟨normData (x.getD "").data ci⟩
    rw [normData_idem]

/-! ## Payment records and the Razorpay paginator
(`fetch_payments`, razorpay_export.py lines 41-74)

The gateway is modelled by `upstream`: the sequence of payment records the
API would serve for the request's time window, in fetch order; the page with
`count=100, skip=k` is `(upstream.drop k).take 100`. -/

/-- A payment item as consumed by the engine: `pid` models
`str(p.get("id", "") or "")`, `pstatus` models `p.get("status") or ""`. -/
structure Payment where
  pid : String
  pstatus : String
deriving Repr, DecidableEq

/-- Client-side page filter: `(p.get("status") or "").lower() == sf` with
`sf = status_filter.lower()`. -/
def statusMatches (f : String) (p : Payment) : Bool :=
  lowerStr p.pstatus == lowerStr f

/-- One raw page from the gateway (`count=100`, Razorpay's maximum). -/
def rawPage (upstream : List Payment) (skip : Nat) : List Payment :=
  (upstream.drop skip).take 100

/-- The page after the client-side filter.  Python's `if status_filter:` is
truthiness, so a `None` filter and an empty-string filter both skip the
filtering step. -/
def pageAfterFilter (upstream : List Payment) (sf : Option String) (skip : Nat) :
    List Payment :=
  match sf with
  | none => rawPage upstream skip
  | some f =>
    if f = "" then rawPage upstream skip
    else (rawPage upstream skip).filter (statusMatches f)

/-- The `while True` loop of `fetch_payments`: extend `items` with the filtered
page, stop when the filtered page is shorter than 100 or the accumulated count
reached `max_fetch`, else `skip += 100`.  `fuel` bounds the iteration count;
`upstream.length + 1` always suffices (`fetchGo_fuel_stable`). -/
def fetchGo (upstream : List Payment) (sf : Option String) (maxFetch : Nat) :
    Nat → Nat → List Payment → List Payment
  | 0, _, items => items
  | fuel + 1, skip, items =>
    let batch := pageAfterFilter upstream sf skip
    let items' := items ++ batch
    if batch.length < 100 ∨ maxFetch ≤ items'.length then items'
    else fetchGo upstream sf maxFetch fuel (skip + 100) items'

/-- `fetch_payments(client, status_filter, from_unix, to_unix, max_fetch)`:
runs the pagination loop, then `return items[:max_fetch]`. -/
def fetch_payments (upstream : List Payment) (sf : Option String) (maxFetch : Nat) :
    List Payment :=
  (fetchGo upstream sf maxFetch (upstream.length + 1) 0 []).take maxFetch

theorem pageAfterFilter_le_rawPage (upstream : List Payment) (sf : Option String)
    (skip : Nat) : (pageAfterFilter upstream sf skip).length ≤ 100 := by
  have hr : (rawPage upstream skip).length ≤ 100 := by
    simp [rawPage, List.length_take]
  cases sf with
  | none => exact hr
  | some f =>
    by_cases hf : f = ""
    · simpa [pageAfterFilter, hf] using hr
    · simp only [pageAfterFilter]
      rw [if_neg hf]
      calc ((rawPage upstream skip).filter (statusMatches f)).length
          ≤ (rawPage upstream skip).length := List.length_filter_le _ _
        _ ≤ 100 := hr

/-- Once `skip` passes the end of `upstream`, pages are empty and the loop
stops at once, so any fuel of at least `upstream.length + 1 - skip` gives the
same result: the chosen fuel never cuts the loop short. -/
theorem fetchGo_fuel_stable (upstream : List Payment) (sf : Option String)
    (maxFetch : Nat) :
    ∀ fuel skip items, upstream.length + 1 ≤ fuel + skip →
      fetchGo upstream sf maxFetch (fuel + 1) skip items =
        fetchGo upstream sf maxFetch fuel skip items := by
  intro fuel
  induction fuel with
  | zero =>
    intro skip items h
    have hd : upstream.drop skip = [] := by
      apply List.drop_eq_nil_of_le
      omega
    have hb : pageAfterFilter upstream sf skip = [] := by
      cases sf with
      | none => simp [pageAfterFilter, rawPage, hd]
      | some f =>
        by_cases hf : f = "" <;> simp [pageAfterFilter, rawPage, hd, hf]
    simp only [fetchGo, hb]
    rw [if_pos]
    · simp
    · simp
  | succ fuel ih =>
    intro skip items h
    simp only [fetchGo]
    by_cases hc : (pageAfterFilter upstream sf skip).length < 100 ∨
        maxFetch ≤ (items ++ pageAfterFilter upstream sf skip).length
    · rw [if_pos hc, if_pos hc]
    · rw [if_neg hc, if_neg hc]
      apply ih
      omega

/-- With no status filter the loop keeps whole pages, so it cannot stop before
either exhausting `upstream` or accumulating `maxFetch` records. -/
theorem fetchGo_length_nofilter (upstream : List Payment) (maxFetch : Nat) :
    ∀ fuel skip items, upstream.length + 1 ≤ fuel + skip →
      min (items.length + (upstream.length - skip)) maxFetch ≤
        (fetchGo upstream none maxFetch fuel skip items).length := by
  intro fuel
  induction fuel with
  | zero =>
    intro skip items h
    simp only [fetchGo]
    omega
  | succ fuel ih =>
    intro skip items h
    have hbatch : (pageAfterFilter upstream none skip).length =
        min 100 (upstream.length - skip) := by
      simp [pageAfterFilter, rawPage, List.length_take, List.length_drop]
    simp only [fetchGo]
    by_cases hc : (pageAfterFilter upstream none skip).length < 100 ∨
        maxFetch ≤ (items ++ pageAfterFilter upstream none skip).length
    · rw [if_pos hc]
      rcases hc with hc | hc
      · have : (items ++ pageAfterFilter upstream none skip).length =
            items.length + (pageAfterFilter upstream none skip).length := by
          simp
        rw [this]
        omega
      · simp only [List.length_append] at hc ⊢
        omega
    · rw [if_neg hc]
      push_neg at hc
      have h2 := ih (skip + 100) (items ++ pageAfterFilter upstream none skip)
        (by omega)
      simp only [List.length_append] at h2 ⊢
      omega

/-! ## Order scanner (reconcile.py lines 174-208)

The Mongo collection is modelled as the sequence of its documents in
ascending `_id` order (`oid`); the query
`find({_id: {$gt: last_id}}).sort([("_id", 1)]).limit(orders_batch_size)`
is then a filter followed by `take`.  The projection also carries `order_id`,
which the loop never reads, so it is omitted from the model. -/

/-- An order document as seen by the scan: its `_id` and the projected
`transaction_id` (`none` models a missing or null field). -/
structure Order where
  oid : Nat
  transaction_id : Option String
deriving Repr, DecidableEq

/-- The `_id`-cursor condition: no cursor yet, or `_id > last_id`. -/
def cursorPred : Option Nat → Order → Bool
  | none, _ => true
  | some c, o => decide (c < o.oid)

/-- One batch: `find(q).sort _id asc .limit(batch_size)`. -/
def queryOrders (coll : List Order) (cursor : Option Nat) (bs : Nat) : List Order :=
  (coll.filter (cursorPred cursor)).take bs

/-- The scan-loop accumulators: `total_orders_docs`, `orders_with_tx`,
`matched_keys` (a Python set, kept as a duplicate-free list). -/
structure ScanState where
  totalDocs : Nat
  ordersWithTx : Nat
  matched : List String
deriving Repr, DecidableEq

/-- `matched_keys.add(tx_key)`. -/
def addKey (k : String) (m : List String) : List String :=
  if k ∈ m then m else k :: m

/-- The per-document body of the scan loop: skip falsy `transaction_id`, skip a
blank normalized key, else count the order and mark a match on membership in
the payment key set. -/
def scanDoc (keys : List String) (ci : Bool) (st : ScanState) (o : Order) : ScanState :=
  match o.transaction_id with
  | none => st
  | some raw =>
    if raw = "" then st
    else
      if norm (some raw) ci = "" then st
      else
        { totalDocs := st.totalDocs
          ordersWithTx := st.ordersWithTx + 1
          matched :=
            if norm (some raw) ci ∈ keys then addKey (norm (some raw) ci) st.matched
            else st.matched }

/-- One loop iteration's processing: `total_orders_docs += len(batch)` and the
inner `for doc in batch` loop. -/
def processBatch (keys : List String) (ci : Bool) (st : ScanState)
    (batch : List Order) : ScanState :=
  batch.foldl (scanDoc keys ci)
    { st with totalDocs := st.totalDocs + batch.length }

/-- The `while True` order-scan loop: fetch a batch, stop if empty, else
process it and advance the cursor to `batch[-1]["_id"]`.  `fuel` bounds the
iteration count and `none` signals exhaustion; `coll.length + 1` always
suffices (`scanGo_spec`). -/
def scanGo (coll : List Order) (bs : Nat) (keys : List String) (ci : Bool) :
    Nat → Option Nat → ScanState → Option ScanState
  | 0, _, _ => none
  | fuel + 1, cursor, st =>
    match (queryOrders coll cursor bs).getLast? with
    | none => some st
    | some lastO =>
      scanGo coll bs keys ci fuel (some lastO.oid)
        (processBatch keys ci st (queryOrders coll cursor bs))

def initialScanState : ScanState := ⟨0, 0, []⟩

/-- The whole order scan of `vlookup_payment_to_orders_auto` (step 2). -/
def scan_orders (coll : List Order) (bs : Nat) (keys : List String) (ci : Bool) :
    Option ScanState :=
  scanGo coll bs keys ci (coll.length + 1) none initialScanState

/-- Reference single pass: every document of the collection processed exactly
once, in order. -/
def scanAll (keys : List String) (ci : Bool) (coll : List Order) : ScanState :=
  coll.foldl (scanDoc keys ci) ⟨coll.length, 0, []⟩

theorem scanDoc_totalDocs (keys : List String) (ci : Bool) (st : ScanState)
    (o : Order) : (scanDoc keys ci st o).totalDocs = st.totalDocs := by
  unfold scanDoc
  split <;> (try rfl) <;> split <;> (try rfl) <;> split <;> rfl

theorem scanDoc_set_totalDocs (keys : List String) (ci : Bool) (st : ScanState)
    (o : Order) (t : Nat) :
    scanDoc keys ci { st with totalDocs := t } o =
      { scanDoc keys ci st o with totalDocs := t } := by
  unfold scanDoc
  split <;> (try rfl) <;> split <;> (try rfl) <;> split <;> rfl

theorem foldl_scanDoc_set_totalDocs (keys : List String) (ci : Bool) (t : Nat) :
    ∀ (l : List Order) (st : ScanState),
      l.foldl (scanDoc keys ci) { st with totalDocs := t } =
        { l.foldl (scanDoc keys ci) st with totalDocs := t } := by
  intro l
  induction l with
  | nil => intro st; rfl
  | cons o l ih =>
    intro st
    simp only [List.foldl_cons, scanDoc_set_totalDocs]
    exact ih (scanDoc keys ci st o)

theorem mem_of_getLast?_eq (l : List Order) (x : Order) (h : l.getLast? = some x) :
    x ∈ l := by
  induction l with
  | nil => simp at h
  | cons a t ih =>
    cases t with
    | nil =>
      simp at h
      simp [h]
    | cons b t' =>
      rw [List.getLast?_cons_cons] at h
      exact List.mem_cons_of_mem a (ih h)

theorem pairwise_last_ge (l : List Order) (x : Order)
    (hp : List.Pairwise (fun a b => a.oid < b.oid) l) (h : l.getLast? = some x) :
    ∀ b ∈ l, b.oid ≤ x.oid := by
  induction l with
  | nil => simp
  | cons a t ih =>
    cases t with
    | nil =>
      intro b hb
      simp at hb
      subst hb
      simp at h
      subst h
      exact Nat.le_refl _
    | cons c t' =>
      rw [List.getLast?_cons_cons] at h
      rw [List.pairwise_cons] at hp
      intro b hb
      rcases List.mem_cons.mp hb with hb | hb
      · subst hb
        have hx : x ∈ c :: t' := mem_of_getLast?_eq (c :: t') x h
        have := hp.1 x hx
        omega
      · exact ih hp.2 h b hb

/-- Advancing the cursor to the last `_id` of the current batch makes the next
query return exactly the part of the pending records after the batch: the
`_id`-cursor pagination loses and repeats nothing on a collection with
strictly increasing identifiers. -/
theorem filter_advance (coll : List Order) (cursor : Option Nat) (bs : Nat)
    (pending : List Order) (x : Order)
    (hsort : List.Pairwise (fun a b => a.oid < b.oid) coll)
    (hpend : coll.filter (cursorPred cursor) = pending)
    (hlast : (pending.take bs).getLast? = some x) :
    coll.filter (cursorPred (some x.oid)) = pending.drop bs := by
  have hps : List.Pairwise (fun a b => a.oid < b.oid) pending := by
    rw [← hpend]
    exact hsort.filter _
  have hx_take : x ∈ pending.take bs := mem_of_getLast?_eq _ x hlast
  have hx_mem : x ∈ pending := List.take_subset bs pending hx_take
  have htp : List.Pairwise (fun a b => a.oid < b.oid) (pending.take bs) :=
    List.Pairwise.sublist (List.take_sublist bs pending) hps
  have hble : ∀ b ∈ pending.take bs, b.oid ≤ x.oid :=
    pairwise_last_ge (pending.take bs) x htp hlast
  have hgt : ∀ r ∈ pending.drop bs, x.oid < r.oid := by
    have hsplit := hps
    rw [← List.take_append_drop bs pending, List.pairwise_append] at hsplit
    intro r hr
    exact hsplit.2.2 x hx_take r hr
  have hPx : cursorPred cursor x = true := by
    have hxf : x ∈ coll.filter (cursorPred cursor) := by
      rw [hpend]
      exact hx_mem
    exact (List.mem_filter.mp hxf).2
  have step1 : coll.filter (cursorPred (some x.oid)) =
      pending.filter (cursorPred (some x.oid)) := by
    rw [← hpend, List.filter_filter]
    apply List.filter_congr
    intro a _
    by_cases hq : cursorPred (some x.oid) a = true
    · rw [hq, Bool.true_and]
      cases cursor with
      | none => rfl
      | some c =>
        have h1 : c < x.oid := by
          simp [cursorPred] at hPx
          exact hPx
        have h2 : x.oid < a.oid := by
          simp [cursorPred] at hq
          exact hq
        have : cursorPred (some c) a = true := by
          simp [cursorPred]
          omega
        exact this.symm
    · rw [Bool.not_eq_true] at hq
      rw [hq, Bool.false_and]
  have hnil : (pending.take bs).filter (cursorPred (some x.oid)) = [] := by
    rw [List.filter_eq_nil_iff]
    intro b hb
    have := hble b hb
    simp [cursorPred]
    omega
  have hself : (pending.drop bs).filter (cursorPred (some x.oid)) = pending.drop bs := by
    rw [List.filter_eq_self]
    intro r hr
    have := hgt r hr
    simp [cursorPred]
    omega
  have h2 : (pending.take bs ++ pending.drop bs).filter (cursorPred (some x.oid)) =
      pending.drop bs := by
    rw [List.filter_append, hnil, hself, List.nil_append]
  rw [List.take_append_drop] at h2
  rw [step1]
  exact h2

/-- Loop correctness of the order scan: as long as the documents still
satisfying the cursor condition are `pending` and the fuel exceeds their
number, the loop terminates and behaves like one pass over `pending`. -/
theorem scanGo_spec (coll : List Order) (bs : Nat) (keys : List String) (ci : Bool)
    (hsort : List.Pairwise (fun a b => a.oid < b.oid) coll) (hbs : 1 ≤ bs) :
    ∀ (fuel : Nat) (cursor : Option Nat) (pending : List Order) (st : ScanState),
      coll.filter (cursorPred cursor) = pending →
      pending.length < fuel →
      scanGo coll bs keys ci fuel cursor st =
        some (pending.foldl (scanDoc keys ci)
          { st with totalDocs := st.totalDocs + pending.length }) := by
  intro fuel
  induction fuel with
  | zero =>
    intro cursor pending st _ hlen
    exact (Nat.not_lt_zero _ hlen).elim
  | succ fuel ih =>
    intro cursor pending st hpend hlen
    simp only [scanGo]
    have hq : queryOrders coll cursor bs = pending.take bs := by
      unfold queryOrders
      rw [hpend]
    rw [hq]
    cases hlast : (pending.take bs).getLast? with
    | none =>
      have htnil : pending.take bs = [] := List.getLast?_eq_none_iff.mp hlast
      have hpnil : pending = [] := by
        rcases (List.take_eq_nil_iff).mp htnil with h | h
        · exact absurd h (by omega)
        · exact h
      subst hpnil
      rfl
    | some x =>
      have hpend' := filter_advance coll cursor bs pending x hsort hpend hlast
      have hpnn : pending ≠ [] := by
        intro h0
        rw [h0] at hlast
        simp at hlast
      have hlen' : (pending.drop bs).length < fuel := by
        rw [List.length_drop]
        have := List.length_pos.mpr hpnn
        omega
      show scanGo coll bs keys ci fuel (some x.oid)
        (processBatch keys ci st (pending.take bs)) = _
      rw [ih (some x.oid) (pending.drop bs)
        (processBatch keys ci st (pending.take bs)) hpend' hlen']
      congr 1
      have hP : processBatch keys ci st (pending.take bs) =
          { (pending.take bs).foldl (scanDoc keys ci) st with
            totalDocs := st.totalDocs + (pending.take bs).length } := by
        unfold processBatch
        rw [foldl_scanDoc_set_totalDocs]
      calc (pending.drop bs).foldl (scanDoc keys ci)
            { processBatch keys ci st (pending.take bs) with
              totalDocs := (processBatch keys ci st (pending.take bs)).totalDocs +
                (pending.drop bs).length }
          = (pending.drop bs).foldl (scanDoc keys ci)
              { (pending.take bs).foldl (scanDoc keys ci) st with
                totalDocs := st.totalDocs + (pending.take bs).length +
                  (pending.drop bs).length } := by
            rw [hP]
        _ = { (pending.drop bs).foldl (scanDoc keys ci)
                ((pending.take bs).foldl (scanDoc keys ci) st) with
              totalDocs := st.totalDocs + (pending.take bs).length +
                (pending.drop bs).length } := by
            rw [foldl_scanDoc_set_totalDocs]
        _ = { pending.foldl (scanDoc keys ci) st with
              totalDocs := st.totalDocs + pending.length } := by
            rw [← List.foldl_append, List.take_append_drop]
            have harith : st.totalDocs + (List.take bs pending).length +
                (List.drop bs pending).length = st.totalDocs + pending.length := by
              rw [List.length_take, List.length_drop]
              omega
            rw [harith]
        _ = pending.foldl (scanDoc keys ci)
              { st with totalDocs := st.totalDocs + pending.length } :=
            (foldl_scanDoc_set_totalDocs keys ci
              (st.totalDocs + pending.length) pending st).symm

/-- On a collection with strictly increasing identifiers and a positive batch
size, the scan loop terminates within its fuel and is one pass over the whole
collection: every document is processed exactly once and
`total_orders_docs` ends at the collection size. -/
theorem scan_orders_eq_scanAll (coll : List Order) (bs : Nat) (keys : List String)
    (ci : Bool) (hsort : List.Pairwise (fun a b => a.oid < b.oid) coll)
    (hbs : 1 ≤ bs) :
    scan_orders coll bs keys ci = some (scanAll keys ci coll) := by
  unfold scan_orders scanAll
  have hfilter : coll.filter (cursorPred none) = coll := by
    apply List.filter_eq_self.mpr
    intro a _
    rfl
  rw [scanGo_spec coll bs keys ci hsort hbs (coll.length + 1) none coll
    initialScanState hfilter (by omega)]
  congr 1
  have h0 : ({ initialScanState with
      totalDocs := initialScanState.totalDocs + coll.length } : ScanState) =
      ⟨coll.length, 0, []⟩ := by
    simp [initialScanState]
  rw [h0]

/-! ## Payment index (reconcile.py lines 161-171)

`pay_index` is a Python dict; modelled as an association list with dict
semantics: overwriting a present key keeps its position, a new key is
appended.  `payment_keys = set(pay_index.keys())` is the key list (dict keys
are unique). -/

/-- The indexed value `{"id": raw_id, "status": st}`. -/
structure PayRec where
  rid : String
  rstatus : String
deriving Repr, DecidableEq

/-- `pay_index[key] = value` on a Python dict. -/
def dinsert (l : List (String × PayRec)) (k : String) (v : PayRec) :
    List (String × PayRec) :=
  if l.any (fun e => e.1 == k) then
    l.map (fun e => if e.1 == k then (k, v) else e)
  else l ++ [(k, v)]

/-- `pay_index.get(k)`. -/
def lookupIdx (l : List (String × PayRec)) (k : String) : Option PayRec :=
  (l.find? (fun e => e.1 == k)).map Prod.snd

/-- One iteration of the index-building loop: skip payments whose raw id is
falsy, else store `{"id": raw_id, "status": (status or "").strip().lower()}`
under the normalized key. -/
def indexStep (ci : Bool) (acc : List (String × PayRec)) (p : Payment) :
    List (String × PayRec) :=
  if p.pid = "" then acc
  else dinsert acc (norm (some p.pid) ci) ⟨p.pid, stripLower p.pstatus⟩

/-- `pay_index` after the `for p in payments` loop. -/
def buildPayIndex (ps : List Payment) (ci : Bool) : List (String × PayRec) :=
  ps.foldl (indexStep ci) []

/-- `payment_keys = set(pay_index.keys())`. -/
def payKeys (idx : List (String × PayRec)) : List String := idx.map Prod.fst

/-- The payments that would write the key `k` into the index. -/
def matchesKey (ci : Bool) (k : String) (p : Payment) : Bool :=
  (!(p.pid == "")) && (norm (some p.pid) ci == k)

/-- The record a payment contributes to the index. -/
def recOf (p : Payment) : PayRec := ⟨p.pid, stripLower p.pstatus⟩

/-! ## NA report (reconcile.py lines 210-254) -/

/-- Stable insertion sort; Python's `list.sort` is stable, so for the total
preorder used here it produces the same list. -/
def insertSorted (le : α → α → Bool) (a : α) : List α → List α
  | [] => [a]
  | b :: l => if le a b then a :: b :: l else b :: insertSorted le a l

def sortLe (le : α → α → Bool) (l : List α) : List α :=
  l.foldr (insertSorted le) []

/-- Code-point lexicographic `≤` on character lists: Python's `<=` on `str`. -/
def strLeB : List Char → List Char → Bool
  | [], _ => true
  | _ :: _, [] => false
  | a :: as, b :: bs =>
    if a.toNat < b.toNat then true
    else if b.toNat < a.toNat then false
    else strLeB as bs

/-- Lexicographic `≤` on strings. -/
def sle (a b : String) : Bool := strLeB a.data b.data

/-- Python `x or default` for optional strings (`None` and `""` are falsy). -/
def orDefault (s : Option String) (d : String) : String :=
  match s with
  | none => d
  | some v => if v = "" then d else v

/-- `target_status = (na_status or "captured").strip().lower()`. -/
def targetStatus (na_status : Option String) : String :=
  stripLower (orDefault na_status "captured")

/-- The `for k in na_keys` loop building `na_items` (as `(id, status)` pairs).
`na_keys = payment_keys - matched_keys` is a Python set whose iteration order
is unspecified; the model iterates it in index order — the items are sorted
before being reported, so the choice does not affect the response. -/
def naItems (idx : List (String × PayRec)) (matched : List String) (tgt : String) :
    List (String × String) :=
  ((payKeys idx).filter (fun k => !(matched.contains k))).filterMap (fun k =>
    match lookupIdx idx k with
    | none => none
    | some r => if r.rstatus == tgt then some (r.rid, tgt) else none)

/-- `na_items.sort(key=lambda x: x["id"])`. -/
def naSorted (idx : List (String × PayRec)) (matched : List String) (tgt : String) :
    List (String × String) :=
  sortLe (fun a b => sle a.1 b.1) (naItems idx matched tgt)

/-- `na_by_status.setdefault(item["status"], []).append(item["id"])` on the
(ordered) Python dict `na_by_status`. -/
def groupAppend (m : List (String × List String)) (k : String) (v : String) :
    List (String × List String) :=
  if m.any (fun e => e.1 == k) then
    m.map (fun e => if e.1 == k then (e.1, e.2 ++ [v]) else e)
  else m ++ [(k, [v])]

/-- The grouping loop over the sorted NA items. -/
def naByStatus (items : List (String × String)) : List (String × List String) :=
  items.foldl (fun m it => groupAppend m it.2 it.1) []

/-! ## Report builder and handler (reconcile.py lines 120-254) -/

structure Summary where
  total_orders_docs_scanned : Nat
  orders_with_transaction_id : Nat
  total_payments_rows : Nat
  payment_status_filter : String
  case_insensitive_ids : Bool
  matched_distinct_payment_ids : Nat
  na_count : Nat
  max_fetch : Nat
  from_date : String
  to_date : String
  orders_batch_size : Nat
  na_status_filter : String
deriving Repr, DecidableEq

structure ReconcileResponse where
  summary : Summary
  na_payment_ids : List String
  na_by_status : List (String × List String)
deriving Repr, DecidableEq

/-- The JSON response assembled at the end of the handler. -/
def buildResponse (payments : List Payment) (idx : List (String × PayRec))
    (st : ScanState) (status : Option String) (ci : Bool) (maxFetch : Nat)
    (from_date to_date : Option String) (obs : Nat) (na_status : Option String) :
    ReconcileResponse :=
  { summary :=
    { total_orders_docs_scanned := st.totalDocs
      orders_with_transaction_id := st.ordersWithTx
      total_payments_rows := payments.length
      payment_status_filter := orDefault status "(ALL)"
      case_insensitive_ids := ci
      matched_distinct_payment_ids := st.matched.length
      na_count := (naSorted idx st.matched (targetStatus na_status)).length
      max_fetch := maxFetch
      from_date := orDefault from_date "(all-time)"
      to_date := orDefault to_date "(all-time)"
      orders_batch_size := obs
      na_status_filter := targetStatus na_status }
    na_payment_ids := (naSorted idx st.matched (targetStatus na_status)).map Prod.fst
    na_by_status := naByStatus (naSorted idx st.matched (targetStatus na_status)) }

/-- External interactions of one handler call, coarsely: the awaited Razorpay
page loop and the Mongo batch loop. -/
inductive NetEvent
  | razorpayCall
  | mongoQuery
deriving Repr, DecidableEq

/-- How a failed handler call surfaces. `httpError` models a raised
`HTTPException(code)`; `parseFailure` models the `dateutil` parse error
propagating uncaught out of the endpoint body. -/
inductive HandlerError
  | httpError (code : Nat)
  | parseFailure
deriving Repr, DecidableEq

/-- The HTTP status the framework reports for each failure: an
`HTTPException` keeps its code, and an uncaught exception becomes a plain 500
internal-server error (FastAPI/Starlette default). -/
def responseStatus : HandlerError → Nat
  | HandlerError.httpError c => c
  | HandlerError.parseFailure => 500

/-- The status FastAPI uses for request-validation errors. -/
def requestValidationStatus : Nat := 422

/-- `_to_unix`: `None`/empty passes through as `None`, otherwise the lenient
date parser must succeed, else its error propagates.  `parse` abstracts
`dateutil.parser.parse(s).timestamp()`. -/
def toUnix (parse : String → Option Int) : Option String →
    Except HandlerError (Option Int)
  | none => Except.ok none
  | some s =>
    if s = "" then Except.ok none
    else
      match parse s with
      | none => Except.error HandlerError.parseFailure
      | some t => Except.ok (some t)

/-- The handler's collaborators: gateway credentials present or not, the
lenient date parser, the gateway's payment stream for the request's time
window, and the order collection in ascending `_id` order. -/
structure Env where
  keysPresent : Bool
  parseDate : String → Option Int
  upstream : List Payment
  orders : List Order

/-- The recognized query parameters. -/
structure Request where
  status : Option String
  max_fetch : Nat
  from_date : Option String
  to_date : Option String
  case_insensitive_ids : Bool
  orders_batch_size : Nat
  na_status : Option String

/-- The endpoint `vlookup_payment_to_orders_auto`: `_assert_keys()`, date
parsing, payment fetch, index build, order scan, response.  The second
component records which external systems were contacted.  The scan's `none`
branch (fuel exhaustion) is unreachable for collections with strictly
increasing identifiers (`scanGo_spec`). -/
def vlookup_payment_to_orders_auto (env : Env) (req : Request) :
    Except HandlerError ReconcileResponse × List NetEvent :=
  if env.keysPresent = false then (Except.error (HandlerError.httpError 500), [])
  else
    match toUnix env.parseDate req.from_date with
    | Except.error e => (Except.error e, [])
    | Except.ok _ =>
      match toUnix env.parseDate req.to_date with
      | Except.error e => (Except.error e, [])
      | Except.ok _ =>
        match scan_orders env.orders req.orders_batch_size
            (payKeys (buildPayIndex
              (fetch_payments env.upstream req.status req.max_fetch)
              req.case_insensitive_ids))
            req.case_insensitive_ids with
        | none =>
          (Except.error (HandlerError.httpError 500),
            [NetEvent.razorpayCall, NetEvent.mongoQuery])
        | some st =>
          (Except.ok (buildResponse
              (fetch_payments env.upstream req.status req.max_fetch)
              (buildPayIndex
                (fetch_payments env.upstream req.status req.max_fetch)
                req.case_insensitive_ids)
              st req.status req.case_insensitive_ids req.max_fetch
              req.from_date req.to_date req.orders_batch_size req.na_status),
            [NetEvent.razorpayCall, NetEvent.mongoQuery])

/-! ### Dict-semantics lemmas for the payment index -/

theorem lookup_map_overwrite (k : String) (v : PayRec) (k' : String) :
    ∀ l : List (String × PayRec),
      lookupIdx (l.map (fun e => if e.1 == k then (k, v) else e)) k' =
        (if k' = k then (if l.any (fun e => e.1 == k) then some v else none)
         else lookupIdx l k') := by
  intro l
  induction l with
  | nil =>
    by_cases h : k' = k <;> simp [lookupIdx, h]
  | cons e t ih =>
    by_cases he : (e.1 == k) = true
    · have heq : e.1 = k := eq_of_beq he
      by_cases hk : k' = k
      · subst hk
        unfold lookupIdx
        rw [List.map_cons, if_pos he, List.find?_cons_of_pos _ (by simp),
          if_pos rfl, if_pos (by rw [List.any_cons, he, Bool.true_or])]
        rfl
      · have hne : (k == k') = false := by
          rw [beq_eq_false_iff_ne]
          exact fun h0 => hk h0.symm
        have hne' : (e.1 == k') = false := by
          rw [beq_eq_false_iff_ne, heq]
          exact fun h0 => hk h0.symm
        simp only [lookupIdx, List.map_cons, if_pos he, List.find?_cons, hne, hne',
          if_neg hk] at *
        simpa [lookupIdx] using ih
    · have hneg : (e.1 == k) = false := by
        rw [Bool.not_eq_true] at he
        exact he
      by_cases hk' : (e.1 == k') = true
      · have hkk : ¬ k' = k := by
          intro h0
          subst h0
          rw [hk'] at hneg
          cases hneg
        unfold lookupIdx
        rw [List.map_cons, if_neg (by rw [hneg]; simp),
          @List.find?_cons_of_pos _ (fun x => x.1 == k') e _ hk', if_neg hkk,
          @List.find?_cons_of_pos _ (fun x => x.1 == k') e _ hk']
      · have hk'' : (e.1 == k') = false := by
          rw [Bool.not_eq_true] at hk'
          exact hk'
        simp only [lookupIdx, List.map_cons, hneg, Bool.false_eq_true, if_false,
          List.find?_cons, hk'', List.any_cons, Bool.false_or] at *
        exact ih

theorem lookup_append_new (l : List (String × PayRec)) (k : String) (v : PayRec)
    (k' : String) (hnot : l.any (fun e => e.1 == k) = false) :
    lookupIdx (l ++ [(k, v)]) k' =
      (if k' = k then some v else lookupIdx l k') := by
  unfold lookupIdx
  rw [List.find?_append]
  by_cases hk : k' = k
  · subst hk
    have hfn : l.find? (fun e => e.1 == k') = none := by
      rw [List.find?_eq_none]
      intro x hx
      have := (List.any_eq_false.mp hnot) x hx
      simpa using this
    rw [hfn]
    simp [List.find?_cons]
  · by_cases hfound : (l.find? (fun e => e.1 == k')).isSome
    · obtain ⟨w, hw⟩ := Option.isSome_iff_exists.mp hfound
      rw [hw]
      simp [if_neg hk]
    · have hfn : l.find? (fun e => e.1 == k') = none := by
        rw [Option.not_isSome_iff_eq_none] at hfound
        exact hfound
      rw [hfn]
      have : ((k, v).1 == k') = false := by
        rw [beq_eq_false_iff_ne]
        exact fun h0 => hk h0.symm
      simp [List.find?_cons, this, if_neg hk]

theorem lookup_dinsert (l : List (String × PayRec)) (k : String) (v : PayRec)
    (k' : String) :
    lookupIdx (dinsert l k v) k' =
      (if k' = k then some v else lookupIdx l k') := by
  unfold dinsert
  by_cases ha : l.any (fun e => e.1 == k) = true
  · rw [if_pos ha, lookup_map_overwrite, ha]
    by_cases hk : k' = k <;> simp [hk]
  · have ha' : l.any (fun e => e.1 == k) = false := by
      rw [Bool.not_eq_true] at ha
      exact ha
    rw [if_neg (by rw [ha']; exact Bool.false_ne_true), lookup_append_new l k v k' ha']

/-- Generalized last-write-wins: folding the index-building step over `ps`
starting from `acc`, a key maps to the record of the last payment of `ps`
writing it, or else to its binding in `acc`. -/
theorem lookup_foldl_index (ci : Bool) (k : String) :
    ∀ (ps : List Payment) (acc : List (String × PayRec)),
      lookupIdx (ps.foldl (indexStep ci) acc) k =
        ((ps.reverse.find? (matchesKey ci k)).map recOf).or (lookupIdx acc k) := by
  intro ps
  induction ps with
  | nil =>
    intro acc
    simp
  | cons p ps ih =>
    intro acc
    rw [List.foldl_cons, ih (indexStep ci acc p), List.reverse_cons, List.find?_append]
    have hstep : ((List.find? (matchesKey ci k) [p]).map recOf).or (lookupIdx acc k) =
        lookupIdx (indexStep ci acc p) k := by
      unfold indexStep
      by_cases hp : p.pid = ""
      · rw [if_pos hp]
        have hm : matchesKey ci k p = false := by
          simp [matchesKey, hp]
        simp [List.find?_cons, hm]
      · rw [if_neg hp]
        rw [lookup_dinsert]
        by_cases hk : norm (some p.pid) ci = k
        · have hm : matchesKey ci k p = true := by
            simp [matchesKey, hp, hk]
          rw [List.find?_cons_of_pos _ hm, if_pos hk.symm]
          simp [recOf]
        · have hm : ¬ matchesKey ci k p = true := by
            simp [matchesKey, hp, hk]
          have hk' : ¬ k = norm (some p.pid) ci := fun h0 => hk h0.symm
          rw [List.find?_cons_of_neg _ hm, if_neg hk']
          simp
    rw [← hstep]
    cases List.find? (matchesKey ci k) ps.reverse <;> simp

theorem mem_dinsert (l : List (String × PayRec)) (k : String) (v : PayRec)
    (e : String × PayRec) (h : e ∈ dinsert l k v) : e ∈ l ∨ e = (k, v) := by
  unfold dinsert at h
  by_cases ha : l.any (fun e => e.1 == k) = true
  · rw [if_pos ha, List.mem_map] at h
    obtain ⟨x, hx, hxe⟩ := h
    by_cases hxk : (x.1 == k) = true
    · rw [if_pos hxk] at hxe
      right
      exact hxe.symm
    · rw [if_neg hxk] at hxe
      left
      rw [← hxe]
      exact hx
  · rw [if_neg ha, List.mem_append] at h
    rcases h with h | h
    · left
      exact h
    · right
      simpa using h

theorem lowerStr_stripLower (s : String) : lowerStr (stripLower s) = stripLower s := by
  show (⟨((pstrip s.data).map lowerChar).map lowerChar⟩ : String) =
    ⟨(pstrip s.data).map lowerChar⟩
  rw [map_lower_idem]

/-- Every index entry stores an already-lowercased status and a non-empty raw
id. -/
theorem buildPayIndex_entries (ci : Bool) :
    ∀ (ps : List Payment) (acc : List (String × PayRec)),
      (∀ e ∈ acc, lowerStr e.2.rstatus = e.2.rstatus ∧ e.2.rid ≠ "") →
      ∀ e ∈ ps.foldl (indexStep ci) acc,
        lowerStr e.2.rstatus = e.2.rstatus ∧ e.2.rid ≠ "" := by
  intro ps
  induction ps with
  | nil =>
    intro acc hacc
    exact hacc
  | cons p ps ih =>
    intro acc hacc
    rw [List.foldl_cons]
    apply ih
    intro e he
    unfold indexStep at he
    by_cases hp : p.pid = ""
    · rw [if_pos hp] at he
      exact hacc e he
    · rw [if_neg hp] at he
      rcases mem_dinsert _ _ _ e he with h | h
      · exact hacc e h
      · rw [h]
        exact ⟨lowerStr_stripLower p.pstatus, hp⟩

/-! ### Spec-side NA report (claim C1)

These definitions follow the specification's words, to be compared with the
code-derived pipeline: `na_keys = PaymentIndex.keys() − MatchedKeySet`,
filtered to keys whose indexed payment status equals the resolved `na_status`
compared case-insensitively, raw ids sorted lexicographically ascending,
grouped by status. -/

/-- Spec words: unmatched keys whose indexed status equals the target,
compared case-insensitively (lower-casing both sides). -/
def naSpecKeys (idx : List (String × PayRec)) (matched : List String)
    (nas : Option String) : List String :=
  ((payKeys idx).filter (fun k => !(matched.contains k))).filter (fun k =>
    match lookupIdx idx k with
    | none => false
    | some r => lowerStr r.rstatus == lowerStr (targetStatus nas))

/-- Spec words: the surviving raw payment ids, sorted lexicographically
ascending. -/
def naSpecIds (idx : List (String × PayRec)) (matched : List String)
    (nas : Option String) : List String :=
  sortLe sle ((naSpecKeys idx matched nas).filterMap
    (fun k => (lookupIdx idx k).map PayRec.rid))

/-- The surviving `(raw id, indexed status)` pairs. -/
def naSpecPairs (idx : List (String × PayRec)) (matched : List String)
    (nas : Option String) : List (String × String) :=
  (naSpecKeys idx matched nas).filterMap
    (fun k => (lookupIdx idx k).map (fun r => (r.rid, r.rstatus)))

/-- Spec words: the sorted surviving ids grouped by (indexed) status into a
map from status to ordered id list. -/
def naSpecByStatus (idx : List (String × PayRec)) (matched : List String)
    (nas : Option String) : List (String × List String) :=
  naByStatus (sortLe (fun a b => sle a.1 b.1) (naSpecPairs idx matched nas))

theorem lowerStr_targetStatus (nas : Option String) :
    lowerStr (targetStatus nas) = targetStatus nas :=
  lowerStr_stripLower (orDefault nas "captured")

/-- On an index whose stored statuses are lower-case fixed points, the code's
status test (`rec["status"] == target_status`) coincides with the spec's
case-insensitive comparison, so the code's item loop equals the spec's
filter-then-project reading. -/
theorem naItems_aux (idx : List (String × PayRec)) (tgt : String)
    (htgt : lowerStr tgt = tgt) :
    ∀ l : List String,
      (∀ k ∈ l, ∀ r, lookupIdx idx k = some r → lowerStr r.rstatus = r.rstatus) →
      l.filterMap (fun k =>
        match lookupIdx idx k with
        | none => none
        | some r => if r.rstatus == tgt then some (r.rid, tgt) else none) =
      (l.filter (fun k =>
        match lookupIdx idx k with
        | none => false
        | some r => lowerStr r.rstatus == lowerStr tgt)).filterMap
        (fun k => (lookupIdx idx k).map (fun r => (r.rid, r.rstatus))) := by
  intro l
  induction l with
  | nil => intro _; rfl
  | cons k l ih =>
    intro hl
    have htail := fun k hk => hl k (List.mem_cons_of_mem _ hk)
    have hhead := hl k (List.mem_cons_self k l)
    rw [List.filterMap_cons, List.filter_cons]
    cases hlk : lookupIdx idx k with
    | none =>
      simp only [hlk]
      rw [if_neg (by simp)]
      exact ih htail
    | some r =>
      have hr : lowerStr r.rstatus = r.rstatus := hhead r hlk
      simp only [hlk]
      by_cases hst : (r.rstatus == tgt) = true
      · have heqst : r.rstatus = tgt := eq_of_beq hst
        rw [if_pos hst, if_pos (by rw [hr, htgt]; exact hst)]
        rw [List.filterMap_cons]
        simp only [hlk, Option.map_some']
        rw [ih htail, heqst]
      · have hst' : (r.rstatus == tgt) = false := by
          rw [Bool.not_eq_true] at hst
          exact hst
        rw [if_neg (by rw [hst']; simp), if_neg (by rw [hr, htgt, hst']; simp)]
        exact ih htail

/-- Entries found in the index satisfy the stored-status invariant. -/
theorem lookup_buildPayIndex_inv (ps : List Payment) (ci : Bool) (k : String)
    (r : PayRec) (h : lookupIdx (buildPayIndex ps ci) k = some r) :
    lowerStr r.rstatus = r.rstatus ∧ r.rid ≠ "" := by
  unfold lookupIdx at h
  cases hf : (buildPayIndex ps ci).find? (fun e => e.1 == k) with
  | none =>
    rw [hf] at h
    cases h
  | some e =>
    rw [hf] at h
    have hmem : e ∈ buildPayIndex ps ci := List.mem_of_find?_eq_some hf
    have := buildPayIndex_entries ci ps []
      (by intro x hx; cases hx) e hmem
    have her : e.2 = r := by
      simpa using h
    rw [← her]
    exact this

/-- The code's NA item loop equals the spec-side pair list on any index built
by the engine. -/
theorem naItems_eq_spec (ps : List Payment) (ci : Bool) (matched : List String)
    (nas : Option String) :
    naItems (buildPayIndex ps ci) matched (targetStatus nas) =
      naSpecPairs (buildPayIndex ps ci) matched nas := by
  unfold naItems naSpecPairs naSpecKeys
  rw [naItems_aux (buildPayIndex ps ci) (targetStatus nas) (lowerStr_targetStatus nas)]
  intro k _ r hr
  exact (lookup_buildPayIndex_inv ps ci k r hr).1

/-! ### Items with a constant second component: sorting and grouping -/

theorem items_const_snd (t : String) :
    ∀ items : List (String × String), (∀ it ∈ items, it.2 = t) →
      items = (items.map Prod.fst).map (fun i => (i, t)) := by
  intro items
  induction items with
  | nil => intro _; rfl
  | cons it items ih =>
    intro h
    have hhd : it.2 = t := h it (List.mem_cons_self it items)
    rw [List.map_cons, List.map_cons]
    rw [← ih (fun x hx => h x (List.mem_cons_of_mem _ hx))]
    have : (it.1, t) = it := by
      rw [← hhd]
    rw [this]

theorem naItems_snd (idx : List (String × PayRec)) (matched : List String)
    (tgt : String) : ∀ it ∈ naItems idx matched tgt, it.2 = tgt := by
  intro it hit
  unfold naItems at hit
  rw [List.mem_filterMap] at hit
  obtain ⟨k, _, hk⟩ := hit
  cases hlk : lookupIdx idx k with
  | none =>
    rw [hlk] at hk
    cases hk
  | some r =>
    rw [hlk] at hk
    have hk' : (if (r.rstatus == tgt) = true then some (r.rid, tgt) else none) =
        some it := hk
    by_cases hst : (r.rstatus == tgt) = true
    · rw [if_pos hst] at hk'
      cases hk'
      rfl
    · rw [if_neg hst] at hk'
      cases hk'

theorem insertSorted_pair (t : String) (a : String) :
    ∀ m : List String,
      insertSorted (fun x y => sle x.1 y.1) (a, t) (m.map (fun i => (i, t))) =
        (insertSorted sle a m).map (fun i => (i, t)) := by
  intro m
  induction m with
  | nil => rfl
  | cons b m ih =>
    rw [List.map_cons]
    unfold insertSorted
    by_cases hab : sle a b = true
    · rw [if_pos hab, if_pos hab]
      rfl
    · rw [if_neg hab, if_neg hab, List.map_cons, ih]

theorem sortLe_pair (t : String) :
    ∀ l : List String,
      sortLe (fun x y => sle x.1 y.1) (l.map (fun i => (i, t))) =
        (sortLe sle l).map (fun i => (i, t)) := by
  intro l
  induction l with
  | nil => rfl
  | cons a l ih =>
    unfold sortLe at *
    rw [List.map_cons, List.foldr_cons, List.foldr_cons, ih, insertSorted_pair]

theorem naByStatus_const_aux (t : String) :
    ∀ (ids : List String) (acc : List String),
      (ids.map (fun i => (i, t))).foldl (fun m it => groupAppend m it.2 it.1)
        [(t, acc)] = [(t, acc ++ ids)] := by
  intro ids
  induction ids with
  | nil =>
    intro acc
    rw [List.map_nil, List.foldl_nil, List.append_nil]
  | cons i ids ih =>
    intro acc
    rw [List.map_cons, List.foldl_cons]
    have hstep : groupAppend [(t, acc)] t i = [(t, acc ++ [i])] := by
      unfold groupAppend
      rw [if_pos (by simp), List.map_cons]
      rw [if_pos (by simp)]
      rfl
    rw [hstep, ih (acc ++ [i]), List.append_assoc]
    rfl

theorem naByStatus_const (t : String) (ids : List String) :
    naByStatus (ids.map (fun i => (i, t))) =
      (if ids = [] then [] else [(t, ids)]) := by
  cases ids with
  | nil => rfl
  | cons i ids =>
    unfold naByStatus
    rw [List.map_cons, List.foldl_cons]
    have hstep : groupAppend [] t i = [(t, [i])] := by
      unfold groupAppend
      rw [if_neg (by simp)]
      rfl
    rw [hstep, naByStatus_const_aux t ids [i]]
    rw [if_neg (by simp)]
    rfl

theorem filterMap_rid_eq_map_fst (idx : List (String × PayRec)) :
    ∀ l : List String,
      l.filterMap (fun k => (lookupIdx idx k).map PayRec.rid) =
        (l.filterMap (fun k => (lookupIdx idx k).map (fun r => (r.rid, r.rstatus)))).map
          Prod.fst := by
  intro l
  induction l with
  | nil => rfl
  | cons k l ih =>
    rw [List.filterMap_cons, List.filterMap_cons]
    cases hlk : lookupIdx idx k with
    | none =>
      simp only [Option.map_none']
      exact ih
    | some r =>
      simp only [Option.map_some']
      rw [List.map_cons, ih]

/-! ### Invariants of the fetch loop and the scan fold -/

/-- With a non-empty status filter, every accumulated record passed the
client-side page filter. -/
theorem fetchGo_all_match (upstream : List Payment) (f : String) (m : Nat)
    (hf : ¬ f = "") :
    ∀ (fuel skip : Nat) (items : List Payment),
      (∀ p ∈ items, statusMatches f p = true) →
      ∀ p ∈ fetchGo upstream (some f) m fuel skip items,
        statusMatches f p = true := by
  intro fuel
  induction fuel with
  | zero =>
    intro skip items h
    exact h
  | succ fuel ih =>
    intro skip items h
    simp only [fetchGo]
    have hfb : pageAfterFilter upstream (some f) skip =
        (rawPage upstream skip).filter (statusMatches f) := by
      show (if f = "" then rawPage upstream skip
        else (rawPage upstream skip).filter (statusMatches f)) =
        (rawPage upstream skip).filter (statusMatches f)
      rw [if_neg hf]
    have hall : ∀ p ∈ items ++ pageAfterFilter upstream (some f) skip,
        statusMatches f p = true := by
      intro p hp
      rw [List.mem_append] at hp
      rcases hp with hp | hp
      · exact h p hp
      · rw [hfb] at hp
        exact (List.mem_filter.mp hp).2
    by_cases hc : (pageAfterFilter upstream (some f) skip).length < 100 ∨
        m ≤ (items ++ pageAfterFilter upstream (some f) skip).length
    · rw [if_pos hc]
      exact hall
    · rw [if_neg hc]
      exact ih (skip + 100) _ hall

theorem scanDoc_matched_subset (keys : List String) (ci : Bool) (st : ScanState)
    (o : Order) (h : st.matched ⊆ keys) : (scanDoc keys ci st o).matched ⊆ keys := by
  unfold scanDoc
  split
  · exact h
  · split
    · exact h
    · split
      · exact h
      · show (if _ ∈ keys then _ else _) ⊆ keys
        split
        · unfold addKey
          split
          · exact h
          · intro x hx
            rcases List.mem_cons.mp hx with hx | hx
            · subst hx
              assumption
            · exact h hx
        · exact h

theorem scanDoc_matched_mono (keys : List String) (ci : Bool) (st : ScanState)
    (o : Order) : st.matched ⊆ (scanDoc keys ci st o).matched := by
  unfold scanDoc
  split
  · exact fun x hx => hx
  · split
    · exact fun x hx => hx
    · split
      · exact fun x hx => hx
      · show st.matched ⊆ (if _ ∈ keys then _ else _)
        split
        · unfold addKey
          split
          · exact fun x hx => hx
          · exact fun x hx => List.mem_cons_of_mem _ hx
        · exact fun x hx => hx

theorem foldl_scanDoc_subset (keys : List String) (ci : Bool) :
    ∀ (docs : List Order) (st : ScanState), st.matched ⊆ keys →
      (docs.foldl (scanDoc keys ci) st).matched ⊆ keys := by
  intro docs
  induction docs with
  | nil =>
    intro st h
    exact h
  | cons o docs ih =>
    intro st h
    rw [List.foldl_cons]
    exact ih _ (scanDoc_matched_subset keys ci st o h)

theorem foldl_scanDoc_mono (keys : List String) (ci : Bool) :
    ∀ (docs : List Order) (st : ScanState),
      st.matched ⊆ (docs.foldl (scanDoc keys ci) st).matched := by
  intro docs
  induction docs with
  | nil =>
    intro st
    exact fun x hx => hx
  | cons o docs ih =>
    intro st
    rw [List.foldl_cons]
    exact fun x hx => ih (scanDoc keys ci st o) (scanDoc_matched_mono keys ci st o hx)

/-- The scan never puts the empty key into the matched set: a transaction
reference normalizing to `""` is skipped before the membership test. -/
theorem scanDoc_no_empty (keys : List String) (ci : Bool) (st : ScanState)
    (o : Order) (h : "" ∉ st.matched) : "" ∉ (scanDoc keys ci st o).matched := by
  unfold scanDoc
  split
  · exact h
  · split
    · exact h
    · split
      · exact h
      · show "" ∉ (if _ ∈ keys then _ else _)
        rename_i raw hraw hnorm
        split
        · unfold addKey
          split
          · exact h
          · intro hx
            rcases List.mem_cons.mp hx with hx | hx
            · exact hnorm hx.symm
            · exact h hx
        · exact h

theorem foldl_scanDoc_no_empty (keys : List String) (ci : Bool) :
    ∀ (docs : List Order) (st : ScanState), "" ∉ st.matched →
      "" ∉ (docs.foldl (scanDoc keys ci) st).matched := by
  intro docs
  induction docs with
  | nil =>
    intro st h
    exact h
  | cons o docs ih =>
    intro st h
    rw [List.foldl_cons]
    exact ih _ (scanDoc_no_empty keys ci st o h)

theorem map_fst_pair (t : String) (l : List String) :
    (l.map (fun i => (i, t))).map Prod.fst = l := by
  rw [List.map_map]
  exact List.map_id l

/-! ## Claim theorems -/

/-- C1: for every payment index and matched-key set produced by a
reconciliation run, the NA result of the response — `na_payment_ids` and
`na_by_status` — equals the spec-side reading: the set difference
`PaymentIndex.keys() − MatchedKeySet`, kept only for keys whose indexed
payment status equals the resolved `na_status` (default "captured", compared
case-insensitively), with the surviving raw payment ids sorted
lexicographically ascending and grouped by status into a map from status to
ordered id list. -/
theorem na_report_eq_spec (ps : List Payment) (ci : Bool)
    (payments : List Payment) (st : ScanState) (status : Option String)
    (maxFetch : Nat) (fd td : Option String) (obs : Nat) (nas : Option String) :
    (buildResponse payments (buildPayIndex ps ci) st status ci maxFetch fd td obs
        nas).na_payment_ids = naSpecIds (buildPayIndex ps ci) st.matched nas ∧
      (buildResponse payments (buildPayIndex ps ci) st status ci maxFetch fd td obs
        nas).na_by_status = naSpecByStatus (buildPayIndex ps ci) st.matched nas := by
  have hitems := naItems_eq_spec ps ci st.matched nas
  have hsnd := naItems_snd (buildPayIndex ps ci) st.matched (targetStatus nas)
  have hconst := items_const_snd (targetStatus nas) _ hsnd
  constructor
  · show (naSorted (buildPayIndex ps ci) st.matched (targetStatus nas)).map Prod.fst =
      naSpecIds (buildPayIndex ps ci) st.matched nas
    unfold naSorted
    rw [hconst, sortLe_pair, map_fst_pair]
    unfold naSpecIds
    rw [filterMap_rid_eq_map_fst]
    show sortLe sle ((naItems (buildPayIndex ps ci) st.matched
      (targetStatus nas)).map Prod.fst) =
      sortLe sle ((naSpecPairs (buildPayIndex ps ci) st.matched nas).map Prod.fst)
    rw [hitems]
  · show naByStatus (naSorted (buildPayIndex ps ci) st.matched (targetStatus nas)) =
      naSpecByStatus (buildPayIndex ps ci) st.matched nas
    unfold naSorted naSpecByStatus
    rw [hitems]

/-- C3: for every payment list, flag and sequence of scanned order documents,
the matched-key set stays a subset of the payment index's key set and grows
monotonically (a key once added is never removed); quantifying over the start
state covers every point of the scan. -/
theorem matched_subset_monotone (ps : List Payment) (ci : Bool)
    (docs : List Order) (st : ScanState)
    (h : st.matched ⊆ payKeys (buildPayIndex ps ci)) :
    (docs.foldl (scanDoc (payKeys (buildPayIndex ps ci)) ci) st).matched ⊆
        payKeys (buildPayIndex ps ci) ∧
      st.matched ⊆
        (docs.foldl (scanDoc (payKeys (buildPayIndex ps ci)) ci) st).matched :=
  ⟨foldl_scanDoc_subset (payKeys (buildPayIndex ps ci)) ci docs st h,
    foldl_scanDoc_mono (payKeys (buildPayIndex ps ci)) ci docs st⟩

theorem matched_subset_monotone_witness :
    (([] : List String) ⊆ payKeys (buildPayIndex [⟨"pay_1", "captured"⟩] false)) ∧
      ((([⟨1, some "pay_1"⟩] : List Order).foldl
          (scanDoc (payKeys (buildPayIndex [⟨"pay_1", "captured"⟩] false)) false)
          ⟨0, 0, []⟩).matched ⊆ payKeys (buildPayIndex [⟨"pay_1", "captured"⟩] false) ∧
        (⟨0, 0, []⟩ : ScanState).matched ⊆
          (([⟨1, some "pay_1"⟩] : List Order).foldl
            (scanDoc (payKeys (buildPayIndex [⟨"pay_1", "captured"⟩] false)) false)
            ⟨0, 0, []⟩).matched) :=
  ⟨fun x hx => absurd hx (List.not_mem_nil x),
    matched_subset_monotone [⟨"pay_1", "captured"⟩] false [⟨1, some "pay_1"⟩]
      ⟨0, 0, []⟩ (fun x hx => absurd hx (List.not_mem_nil x))⟩

/-- C5 counterexample: the claim says a payment whose raw id normalizes to an
empty key is never inserted into the index; but index construction only skips
an *empty raw id*, so the payment `" "` (nonempty raw id, blank normalized
key) does put the empty key into the index. -/
theorem empty_key_indexed_counterexample :
    norm (some " ") false = "" ∧
      lookupIdx (buildPayIndex [⟨" ", "captured"⟩] false) "" =
        some ⟨" ", "captured"⟩ := by
  constructor
  · decide
  · decide

/-- C5 amended: index construction skips exactly the payments whose raw id is
empty (so every index entry carries a nonempty raw id, though a blank
normalized key can appear); scanning skips a transaction reference that is
missing, empty, or normalizes to the empty key before the membership test, so
the empty key is never added to the matched set and blank keys never match. -/
theorem blank_keys_never_match (ps : List Payment) (ci : Bool) (k : String)
    (r : PayRec) (keys : List String) (docs : List Order) (st : ScanState)
    (hlook : lookupIdx (buildPayIndex ps ci) k = some r)
    (hm : "" ∉ st.matched) :
    r.rid ≠ "" ∧ "" ∉ (docs.foldl (scanDoc keys ci) st).matched :=
  ⟨(lookup_buildPayIndex_inv ps ci k r hlook).2,
    foldl_scanDoc_no_empty keys ci docs st hm⟩

theorem blank_keys_never_match_witness :
    (lookupIdx (buildPayIndex [⟨"pay_1", "captured"⟩] false) "pay_1" =
        some ⟨"pay_1", "captured"⟩ ∧ "" ∉ ([] : List String)) ∧
      ((⟨"pay_1", "captured"⟩ : PayRec).rid ≠ "" ∧
        "" ∉ (([⟨1, some " "⟩] : List Order).foldl (scanDoc [""] false)
          ⟨0, 0, []⟩).matched) :=
  ⟨⟨by decide, by decide⟩,
    blank_keys_never_match [⟨"pay_1", "captured"⟩] false "pay_1"
      ⟨"pay_1", "captured"⟩ [""] [⟨1, some " "⟩] ⟨0, 0, []⟩ (by decide) (by decide)⟩

/-- C6: the payment index maps each key to the raw id and (normalized) status
of the payment occurring latest in fetch order among those with a nonempty
raw id normalizing to that key — last-write-wins on duplicate normalized
keys. -/
theorem index_last_write_wins (ps : List Payment) (ci : Bool) (k : String) :
    lookupIdx (buildPayIndex ps ci) k =
      (ps.reverse.find? (matchesKey ci k)).map recOf := by
  unfold buildPayIndex
  rw [lookup_foldl_index]
  exact Option.or_none

/-- Gateway contents for the C2 counterexample: the first raw page of 100
holds one captured payment among 99 failed ones; two more captured payments
follow on the second page. -/
def upstream0 : List Payment :=
  ⟨"c1", "captured"⟩ :: (List.replicate 99 ⟨"f0", "failed"⟩ ++
    [⟨"c2", "captured"⟩, ⟨"c3", "captured"⟩])

/-- C2 counterexample: the loop's stop test `len(batch) < COUNT` looks at the
*filtered* page, so with a status filter it can stop although the upstream
still holds enough matching payments: `max_fetch = 2`, three captured
payments upstream, but only one row is fetched and reported. -/
theorem fetch_truncation_counterexample :
    2 ≤ (upstream0.filter (statusMatches "captured")).length ∧
      (fetch_payments upstream0 (some "captured") 2).length = 1 := by
  constructor
  · decide
  · decide

/-- C2 amended: with a *null* status filter (pages are then accumulated
whole), `max_fetch = N` and at least N upstream payments give exactly N
processed payment rows, and the summary reports N in
`total_payments_rows`. -/
theorem fetch_exact_maxfetch (upstream : List Payment) (n : Nat)
    (idx : List (String × PayRec)) (st : ScanState) (ci : Bool)
    (fd td : Option String) (obs : Nat) (nas : Option String)
    (hn : 1 ≤ n) (hlen : n ≤ upstream.length) :
    (fetch_payments upstream none n).length = n ∧
      (buildResponse (fetch_payments upstream none n) idx st none ci n fd td obs
        nas).summary.total_payments_rows = n := by
  have hacc := fetchGo_length_nofilter upstream n (upstream.length + 1) 0 []
    (by omega)
  have hlen1 : (fetch_payments upstream none n).length = n := by
    unfold fetch_payments
    rw [List.length_take]
    simp only [List.length_nil, Nat.zero_add, Nat.sub_zero] at hacc
    omega
  exact ⟨hlen1, hlen1⟩

set_option maxRecDepth 8000 in
theorem fetch_exact_maxfetch_witness :
    (1 ≤ 120 ∧ 120 ≤ (List.replicate 150 (⟨"p0", "captured"⟩ : Payment)).length) ∧
      ((fetch_payments (List.replicate 150 ⟨"p0", "captured"⟩) none 120).length =
          120 ∧
        (buildResponse (fetch_payments (List.replicate 150 ⟨"p0", "captured"⟩)
            none 120) [] ⟨0, 0, []⟩ none false 120 none none 1000
            none).summary.total_payments_rows = 120) :=
  ⟨⟨by decide, by decide⟩,
    fetch_exact_maxfetch (List.replicate 150 ⟨"p0", "captured"⟩) 120 [] ⟨0, 0, []⟩
      false none none 1000 none (by decide) (by decide)⟩

/-- C7 counterexample: the claim quantifies over every non-null filter, but
`if status_filter:` is Python truthiness, so the empty-string filter skips
filtering entirely and a record whose status differs from the filter is still
returned. -/
theorem status_filter_empty_counterexample :
    fetch_payments [⟨"p1", "captured"⟩] (some "") 10 = [⟨"p1", "captured"⟩] ∧
      ¬ lowerStr "captured" = lowerStr "" := by
  constructor
  · decide
  · decide

/-- C7 amended: for every non-null, *non-empty* status filter, every returned
record's status equals the filter case-insensitively, the result holds at
most `max_fetch` records, and it is truncated to exactly `max_fetch` whenever
the loop accumulated at least that many. -/
theorem status_filter_correct (upstream : List Payment) (f : String) (m : Nat)
    (hf : ¬ f = "") :
    (∀ p ∈ fetch_payments upstream (some f) m, lowerStr p.pstatus = lowerStr f) ∧
      (fetch_payments upstream (some f) m).length ≤ m ∧
      (m ≤ (fetchGo upstream (some f) m (upstream.length + 1) 0 []).length →
        (fetch_payments upstream (some f) m).length = m) := by
  refine ⟨?_, ?_, ?_⟩
  · intro p hp
    have hp' : p ∈ fetchGo upstream (some f) m (upstream.length + 1) 0 [] :=
      List.take_subset _ _ hp
    have hm := fetchGo_all_match upstream f m hf (upstream.length + 1) 0 []
      (fun q hq => absurd hq (List.not_mem_nil q)) p hp'
    unfold statusMatches at hm
    exact eq_of_beq hm
  · unfold fetch_payments
    rw [List.length_take]
    omega
  · intro hge
    unfold fetch_payments
    rw [List.length_take]
    omega

theorem status_filter_correct_witness :
    (¬ "captured" = "") ∧
      ((∀ p ∈ fetch_payments [⟨"P1", "Captured"⟩] (some "captured") 5,
          lowerStr p.pstatus = lowerStr "captured") ∧
        (fetch_payments [⟨"P1", "Captured"⟩] (some "captured") 5).length ≤ 5 ∧
        (5 ≤ (fetchGo [⟨"P1", "Captured"⟩] (some "captured") 5 2 0 []).length →
          (fetch_payments [⟨"P1", "Captured"⟩] (some "captured") 5).length = 5)) :=
  ⟨by decide, status_filter_correct [⟨"P1", "Captured"⟩] "captured" 5 (by decide)⟩

/-- C8: on a finite collection with distinct, strictly increasing record
identifiers and a positive batch size, the cursor-paginated order scan
terminates and equals one pass that processes every document exactly once
(so `total_orders_docs_scanned` ends at the collection size), and on the
empty collection it stops after the first empty-batch check with zero
documents scanned. -/
theorem order_scan_terminates_once (coll : List Order) (bs : Nat)
    (keys : List String) (ci : Bool)
    (hsort : List.Pairwise (fun a b => a.oid < b.oid) coll) (hbs : 1 ≤ bs) :
    scan_orders coll bs keys ci = some (scanAll keys ci coll) ∧
      scan_orders [] bs keys ci = some ⟨0, 0, []⟩ :=
  ⟨scan_orders_eq_scanAll coll bs keys ci hsort hbs,
    scan_orders_eq_scanAll [] bs keys ci List.Pairwise.nil hbs⟩

theorem order_scan_terminates_once_witness :
    (List.Pairwise (fun a b => a.oid < b.oid)
        ([⟨1, some "a"⟩, ⟨2, none⟩, ⟨5, some "b"⟩] : List Order) ∧ 1 ≤ 2) ∧
      (scan_orders [⟨1, some "a"⟩, ⟨2, none⟩, ⟨5, some "b"⟩] 2 ["a"] false =
          some (scanAll ["a"] false [⟨1, some "a"⟩, ⟨2, none⟩, ⟨5, some "b"⟩]) ∧
        scan_orders [] 2 ["a"] false = some ⟨0, 0, []⟩) :=
  ⟨⟨by decide, by decide⟩,
    order_scan_terminates_once [⟨1, some "a"⟩, ⟨2, none⟩, ⟨5, some "b"⟩] 2 ["a"]
      false (by decide) (by decide)⟩

theorem toUnix_error (parse : String → Option Int) (s : Option String)
    (e : HandlerError) (h : toUnix parse s = Except.error e) :
    e = HandlerError.parseFailure := by
  cases s with
  | none => exact Except.noConfusion h
  | some v =>
    simp only [toUnix] at h
    by_cases hv : v = ""
    · rw [if_pos hv] at h
      exact Except.noConfusion h
    · rw [if_neg hv] at h
      cases hp : parse v with
      | none =>
        rw [hp] at h
        injection h with h1
        exact h1.symm
      | some t =>
        rw [hp] at h
        exact Except.noConfusion h

/-- C9 counterexample: a request with an unparsable date fails before any
network call, but it surfaces as the uncaught parse exception — an internal
server error (500) — not as a request-validation error (422). -/
theorem date_parse_error_counterexample :
    vlookup_payment_to_orders_auto ⟨true, fun _ => none, [], []⟩
        ⟨none, 10, some "not-a-date", none, false, 1000, none⟩ =
      (Except.error HandlerError.parseFailure, []) ∧
      ¬ responseStatus HandlerError.parseFailure = requestValidationStatus := by
  constructor
  · rfl
  · decide

/-- C9 amended: with credentials present, a from_date or to_date the lenient
parser cannot parse makes the call fail before any network call to the
gateway or the store; the failure is the parse error propagating uncaught
(surfaced as HTTP 500), not a request-validation error. -/
theorem date_parse_error_before_network (env : Env) (req : Request)
    (hkeys : env.keysPresent = true)
    (hbad : toUnix env.parseDate req.from_date =
        Except.error HandlerError.parseFailure ∨
      toUnix env.parseDate req.to_date = Except.error HandlerError.parseFailure) :
    vlookup_payment_to_orders_auto env req =
        (Except.error HandlerError.parseFailure, []) ∧
      responseStatus HandlerError.parseFailure = 500 := by
  refine ⟨?_, rfl⟩
  unfold vlookup_payment_to_orders_auto
  rw [hkeys]
  rw [if_neg (by simp)]
  cases hf : toUnix env.parseDate req.from_date with
  | error e =>
    have he : e = HandlerError.parseFailure :=
      toUnix_error env.parseDate req.from_date e hf
    rw [he]
  | ok a =>
    rcases hbad with hb | hb
    · rw [hf] at hb
      exact Except.noConfusion hb
    · cases ht : toUnix env.parseDate req.to_date with
      | error e' =>
        have he' : e' = HandlerError.parseFailure :=
          toUnix_error env.parseDate req.to_date e' ht
        rw [he']
      | ok b =>
        rw [ht] at hb
        exact Except.noConfusion hb

theorem date_parse_error_before_network_witness :
    ((⟨true, fun _ => none, [], []⟩ : Env).keysPresent = true ∧
      (toUnix (fun _ => none) (some "garbage") =
          Except.error HandlerError.parseFailure ∨
        toUnix (fun _ => none) none = Except.error HandlerError.parseFailure)) ∧
      (vlookup_payment_to_orders_auto ⟨true, fun _ => none, [], []⟩
          ⟨none, 5, some "garbage", none, false, 1000, none⟩ =
          (Except.error HandlerError.parseFailure, []) ∧
        responseStatus HandlerError.parseFailure = 500) :=
  ⟨⟨rfl, Or.inl rfl⟩,
    date_parse_error_before_network ⟨true, fun _ => none, [], []⟩
      ⟨none, 5, some "garbage", none, false, 1000, none⟩ rfl (Or.inl rfl)⟩

/-- C10: in every response the three NA output fields are mutually
consistent: `summary.na_count` equals the length of `na_payment_ids`, every
key of `na_by_status` equals the resolved na-status filter, and the
concatenation of the lists in `na_by_status` equals `na_payment_ids` element
for element in the same order. -/
theorem na_outputs_consistent (payments : List Payment)
    (idx : List (String × PayRec)) (st : ScanState) (status : Option String)
    (ci : Bool) (maxFetch : Nat) (fd td : Option String) (obs : Nat)
    (nas : Option String) :
    (buildResponse payments idx st status ci maxFetch fd td obs
        nas).summary.na_count =
      (buildResponse payments idx st status ci maxFetch fd td obs
        nas).na_payment_ids.length ∧
      (∀ e ∈ (buildResponse payments idx st status ci maxFetch fd td obs
          nas).na_by_status,
        e.1 = (buildResponse payments idx st status ci maxFetch fd td obs
          nas).summary.na_status_filter) ∧
      ((buildResponse payments idx st status ci maxFetch fd td obs
          nas).na_by_status.map Prod.snd).join =
        (buildResponse payments idx st status ci maxFetch fd td obs
          nas).na_payment_ids := by
  have hsnd := naItems_snd idx st.matched (targetStatus nas)
  have hconst := items_const_snd (targetStatus nas) _ hsnd
  have hsorted : naSorted idx st.matched (targetStatus nas) =
      (sortLe sle ((naItems idx st.matched (targetStatus nas)).map Prod.fst)).map
        (fun i => (i, targetStatus nas)) := by
    unfold naSorted
    conv_lhs => rw [hconst]
    rw [sortLe_pair]
  refine ⟨?_, ?_, ?_⟩
  · show (naSorted idx st.matched (targetStatus nas)).length =
      ((naSorted idx st.matched (targetStatus nas)).map Prod.fst).length
    rw [List.length_map]
  · show ∀ e ∈ naByStatus (naSorted idx st.matched (targetStatus nas)),
      e.1 = targetStatus nas
    rw [hsorted, naByStatus_const]
    by_cases hnil :
        sortLe sle ((naItems idx st.matched (targetStatus nas)).map Prod.fst) = []
    · rw [if_pos hnil]
      intro e he
      cases he
    · rw [if_neg hnil]
      intro e he
      have := List.mem_singleton.mp he
      rw [this]
  · show ((naByStatus (naSorted idx st.matched (targetStatus nas))).map
        Prod.snd).join =
      (naSorted idx st.matched (targetStatus nas)).map Prod.fst
    rw [hsorted, naByStatus_const, map_fst_pair]
    by_cases hnil :
        sortLe sle ((naItems idx st.matched (targetStatus nas)).map Prod.fst) = []
    · rw [if_pos hnil, hnil]
      rfl
    · rw [if_neg hnil]
      simp

end Reconcile
